import Mathlib

/-!
Shallow embedding of the response-handling layer of `src/fintech-rag/api/app.py`:
the message renderers (`_render_message_chunk`, `_render_completed_message`),
the streaming aggregator (`StreamResponseHandler.handle_response`), the
single-shot extractor (`InvokeResponseHandler.handle_response`) and the
orchestrator (`AgentQueryProcessor.process_query`), together with proofs of
the specified properties.

Python values are modelled as follows: strings are `String`; a tool-call
descriptor (a Python dict) is carried as the string Python's `str` would
print for it, so that `str` of a list of descriptors is the bracketed
comma-separated join (`pyStrList`); optional dict keys are `Option`;
iteration order of a Python dict is the order of an association `List`;
an exception is carried as the string `str(e)` returns for it.
-/

/-- Python's `str` of a list, given the `str` of each element:
`[e1, e2, ...]`. Used for `str(token.tool_call_chunks)` and
`f"Tool Calls: \x7bmessage.tool_calls\x7d"`. -/
def pyStrList (xs : List String) : String :=
  "[" ++ String.intercalate ", " xs ++ "]"

/-- `langchain` `AIMessageChunk` as used by the code: its `text` and its
`tool_call_chunks` list (each chunk carried as its `str`). -/
structure AIMessageChunk where
  text : String
  tool_call_chunks : List String
deriving DecidableEq

/-- `langchain` `AnyMessage` as the code inspects it: an `AIMessage` with
`content` and a `tool_calls` list (each call carried as its `str`), a
`ToolMessage` with `content`, or any other message shape, carrying its
`content` attribute and the string `str(message)` returns. -/
inductive AnyMessage where
  | ai (content : String) (tool_calls : List String)
  | toolMsg (content : String)
  | other (content : String) (strRepr : String)
deriving DecidableEq

/-- The `.content` attribute of a message. -/
def AnyMessage.content : AnyMessage → String
  | .ai c _ => c
  | .toolMsg c => c
  | .other c _ => c

/-- `_render_message_chunk` (app.py lines 78-83): non-empty text verbatim,
else `str(tool_call_chunks)` when that list is non-empty, else `""`. -/
def _render_message_chunk (token : AIMessageChunk) : String :=
  if token.text ≠ "" then token.text
  else if token.tool_call_chunks ≠ [] then pyStrList token.tool_call_chunks
  else ""

/-- `_render_completed_message` (app.py lines 85-92): dispatch on the
message's class, falling through to `str(message)`. -/
def _render_completed_message : AnyMessage → String
  | .ai content tool_calls =>
      if tool_calls ≠ [] then "Tool Calls: " ++ pyStrList tool_calls
      else content
  | .toolMsg content => "Tool Result: " ++ content
  | .other _ strRepr => strRepr

/-- `StepInfo` pydantic model (app.py lines 100-102). -/
structure StepInfo where
  step : String
  message : String
deriving DecidableEq

/-- `StreamModeInfo` pydantic model (app.py lines 104-106). -/
structure StreamModeInfo where
  stream_mode : String
  steps : List StepInfo
deriving DecidableEq

/-- `QueryResponse` pydantic model (app.py lines 108-111); `error` defaults
to `None`. -/
structure QueryResponse where
  response : String
  streamModes : List StreamModeInfo
  error : Option String
deriving DecidableEq

/-- The result of `agent.invoke(...)` as `InvokeResponseHandler` inspects it:
either a dict — with the values of its `"output"` and `"messages"` keys
(`none` when the key is absent or maps to `None`; a falsy `"output"` value is
`some ""`) and the string `str(result)` prints for the whole dict — or a
non-dict object carried as its `str`. -/
inductive InvokeResult where
  | dict (output : Option String) (messages : Option (List AnyMessage)) (strRepr : String)
  | nonDict (strRepr : String)
deriving DecidableEq

/-- `InvokeResponseHandler.handle_response` (app.py lines 169-183), after the
call to `agent.invoke`. The conditional expression in the source parses as
`(result.get("output") or result.get("messages", [])[-1].content)
if result.get("messages") else str(result)`, so the `"output"` key is
consulted only when the `"messages"` key holds a non-empty list. -/
def invoke_handle_response : InvokeResult → String × List StreamModeInfo
  | .dict output messages strRepr =>
      match messages with
      | some msgs =>
          match msgs.getLast? with
          | some lastMsg =>
              (match output with
               | some o => if o = "" then lastMsg.content else o
               | none => lastMsg.content, [])
          | none => (strRepr, [])
      | none => (strRepr, [])
  | .nonDict strRepr => (strRepr, [])

/-- `AgentQueryProcessor.process_query` (app.py lines 192-204). The `try`
body — building the two-message conversation, `get_agent()`, and the
handler call — either returns a `(final_response, stream_modes)` pair or
raises an exception `e`; the argument is that outcome, with the exception
carried as `str(e)`. Success wraps the pair with the default `error=None`;
failure returns `QueryResponse(response="", error=str(e))`, whose
`streamModes` takes the pydantic default `[]`. -/
def process_query : Except String (String × List StreamModeInfo) → QueryResponse
  | .ok (final_response, stream_modes) =>
      { response := final_response, streamModes := stream_modes, error := none }
  | .error e => { response := "", streamModes := [], error := some e }

/-- The payload of a `"messages"`-mode stream event: the `(token, metadata)`
tuple's token, which is either an `AIMessageChunk` or some other object
(carrying whatever content it may have; the code ignores it either way).
The metadata half of the tuple is never read by the handler. -/
inductive TokenPayload where
  | chunkTok (c : AIMessageChunk)
  | nonChunk (content : String)
deriving DecidableEq

/-- One node's state snapshot inside an `"updates"`-mode chunk: the value of
its `"messages"` key, `none` when the key is absent. -/
structure NodeData where
  messages : Option (List AnyMessage)
deriving DecidableEq

/-- One element of the stream drained by `StreamResponseHandler`: the
`(stream_mode, chunk)` pair. An `"updates"` chunk is a dict from node name
to state, kept in its iteration order; a `"custom"` chunk is carried as the
string `str(chunk)` prints for it. -/
inductive StreamEvent where
  | tokenEv (p : TokenPayload)
  | updatesEv (chunk : List (String × NodeData))
  | customEv (payload : String)
deriving DecidableEq

/-- The loop state of `StreamResponseHandler.handle_response`: the three
buckets of `modes_map` (dict insertion order `"messages"`, `"updates"`,
`"custom"`) and the `final_response` variable. -/
structure AggState where
  messagesBucket : List StepInfo
  updatesBucket : List StepInfo
  customBucket : List StepInfo
  final_response : String
deriving DecidableEq

/-- Initial loop state: three empty buckets, `final_response = ""`. -/
def initState : AggState :=
  { messagesBucket := [], updatesBucket := [], customBucket := [], final_response := "" }

/-- The body of the inner `for node_name, data in chunk.items()` loop
(app.py lines 144-151): when the node's state has a non-empty `"messages"`
list, render its last message, append it to the `"updates"` bucket, and when
that last message is an `AIMessage` without tool calls overwrite
`final_response` with the rendered content. -/
def processNodeItem (st : AggState) (item : String × NodeData) : AggState :=
  match item.2.messages with
  | some msgs =>
      match msgs.getLast? with
      | some last_message =>
          let content := _render_completed_message last_message
          let st' := { st with updatesBucket := st.updatesBucket ++ [⟨item.1, content⟩] }
          match last_message with
          | .ai _ tool_calls =>
              if tool_calls = [] then { st' with final_response := content } else st'
          | _ => st'
      | none => st
  | none => st

/-- The body of the outer `for stream_mode, chunk in agent.stream(...)` loop
(app.py lines 134-154), one event at a time. -/
def processEvent (st : AggState) (ev : StreamEvent) : AggState :=
  match ev with
  | .tokenEv p =>
      match p with
      | .chunkTok c =>
          let content := _render_message_chunk c
          if content ≠ "" then
            { st with messagesBucket := st.messagesBucket ++ [⟨"Token", content⟩] }
          else st
      | .nonChunk _ => st
  | .updatesEv chunk => chunk.foldl processNodeItem st
  | .customEv payload =>
      { st with customBucket := st.customBucket ++ [⟨"", payload⟩] }

/-- The loop state after draining a whole event sequence. -/
def finalState (events : List StreamEvent) : AggState :=
  events.foldl processEvent initState

/-- The list-comprehension at app.py lines 157-161: the three buckets in
`modes_map` insertion order, skipping each empty one. -/
def assembleStreamModes (st : AggState) : List StreamModeInfo :=
  (([("messages", st.messagesBucket), ("updates", st.updatesBucket),
     ("custom", st.customBucket)] : List (String × List StepInfo)).filter
    (fun p => p.2 ≠ [])).map (fun p => ⟨p.1, p.2⟩)

/-- `StreamResponseHandler.handle_response` (app.py lines 125-163), after the
call to `agent.stream` produced the event sequence. -/
def stream_handle_response (events : List StreamEvent) : String × List StreamModeInfo :=
  let st := finalState events
  (st.final_response, assembleStreamModes st)


/-- Spec-side reading for the final-response refinement: of one node
snapshot, the rendered text of its last message when the snapshot has a
non-empty message list whose last message is an assistant message with an
empty tool-call list, else nothing. -/
def nodeAnswer (item : String × NodeData) : Option String :=
  match item.2.messages with
  | some msgs =>
      match msgs.getLast? with
      | some (.ai c tool_calls) =>
          if tool_calls = [] then some (_render_completed_message (.ai c tool_calls))
          else none
      | _ => none
  | none => none

/-- The last defined value of `f` over a list, scanned left to right. -/
def lastSome (f : α → Option β) (l : List α) : Option β :=
  l.foldl (fun acc it => ((f it).orElse fun _ => acc)) none

/-- Spec-side reading: of one stream event, the rendered text of its last
qualifying message (step-update events only). -/
def eventAnswer : StreamEvent → Option String
  | .updatesEv chunk => lastSome nodeAnswer chunk
  | _ => none

/-- Spec-side reading: of a whole event sequence, the rendered text of the
last qualifying message. -/
def streamAnswer (events : List StreamEvent) : Option String :=
  lastSome eventAnswer events

theorem foldl_orElse_eq (f : α → Option β) (l : List α) (a : Option β) :
    l.foldl (fun acc it => ((f it).orElse fun _ => acc)) a =
      ((lastSome f l).orElse fun _ => a) := by
  induction l generalizing a with
  | nil => simp [lastSome]
  | cons x xs ih =>
      rw [lastSome, List.foldl_cons, List.foldl_cons, ih, ih ((f x).orElse fun _ => none)]
      cases lastSome f xs <;> cases f x <;> rfl

theorem lastSome_cons (f : α → Option β) (x : α) (l : List α) :
    lastSome f (x :: l) = ((lastSome f l).orElse fun _ => f x) := by
  rw [lastSome, List.foldl_cons, foldl_orElse_eq]
  cases f x <;> rfl

theorem processNodeItem_final (st : AggState) (it : String × NodeData) :
    (processNodeItem st it).final_response = (nodeAnswer it).getD st.final_response := by
  obtain ⟨name, msgs?⟩ := it
  obtain ⟨msgs?⟩ := msgs?
  cases msgs? with
  | none => rfl
  | some msgs =>
      cases hl : msgs.getLast? with
      | none => simp [processNodeItem, nodeAnswer, hl]
      | some m =>
          cases m with
          | ai c tc =>
              by_cases htc : tc = [] <;> simp [processNodeItem, nodeAnswer, hl, htc]
          | toolMsg c => simp [processNodeItem, nodeAnswer, hl]
          | other c r => simp [processNodeItem, nodeAnswer, hl]

theorem foldl_processNodeItem_final (chunk : List (String × NodeData)) (st : AggState) :
    (chunk.foldl processNodeItem st).final_response =
      (lastSome nodeAnswer chunk).getD st.final_response := by
  induction chunk generalizing st with
  | nil => simp [lastSome]
  | cons x xs ih =>
      rw [List.foldl_cons, ih, lastSome_cons, processNodeItem_final]
      cases lastSome nodeAnswer xs <;> cases nodeAnswer x <;> rfl

theorem processEvent_final (st : AggState) (ev : StreamEvent) :
    (processEvent st ev).final_response = (eventAnswer ev).getD st.final_response := by
  cases ev with
  | tokenEv p =>
      cases p with
      | chunkTok c =>
          simp only [processEvent]
          split <;> rfl
      | nonChunk s => rfl
  | updatesEv chunk => exact foldl_processNodeItem_final chunk st
  | customEv s => rfl

theorem foldl_processEvent_final (events : List StreamEvent) (st : AggState) :
    (events.foldl processEvent st).final_response =
      (streamAnswer events).getD st.final_response := by
  induction events generalizing st with
  | nil => simp [streamAnswer, lastSome]
  | cons ev evs ih =>
      rw [List.foldl_cons, ih]
      rw [show streamAnswer (ev :: evs) = ((streamAnswer evs).orElse fun _ => eventAnswer ev) from
        lastSome_cons eventAnswer ev evs]
      rw [processEvent_final]
      cases streamAnswer evs <;> cases eventAnswer ev <;> rfl

/-- C3: a step-update event whose last qualifying message renders to `t`
overwrites the final-response candidate with `t` whatever the state was
before (last-writer-wins, across step names and interleavings), and after
the whole drain the returned final response is the rendered text of the
last qualifying message of the whole sequence, the empty string when there
is none. -/
theorem stream_final_response_last_writer_wins :
    (∀ (st : AggState) (ev : StreamEvent) (t : String),
        eventAnswer ev = some t → (processEvent st ev).final_response = t) ∧
    (∀ events : List StreamEvent,
        (stream_handle_response events).1 = (streamAnswer events).getD "") := by
  constructor
  · intro st ev t h
    rw [processEvent_final, h]
    rfl
  · intro events
    show (finalState events).final_response = _
    rw [finalState, foldl_processEvent_final]
    rfl

/-- C9: a token-mode event whose payload token is not an `AIMessageChunk`
leaves the whole aggregation state — all three buckets and the
final-response candidate — unchanged, whatever content it carries. -/
theorem token_event_non_chunk_is_noop (st : AggState) (content : String) :
    processEvent st (StreamEvent.tokenEv (TokenPayload.nonChunk content)) = st := rfl

/-- C7: a token chunk with empty text and no tool-call fragments renders to
the empty string, and the corresponding token-mode event leaves the
aggregation state unchanged — no `StepInfo` is appended to the token
bucket. -/
theorem empty_token_chunk_suppressed (st : AggState) (c : AIMessageChunk)
    (h1 : c.text = "") (h2 : c.tool_call_chunks = []) :
    _render_message_chunk c = "" ∧
      processEvent st (StreamEvent.tokenEv (TokenPayload.chunkTok c)) = st := by
  have hr : _render_message_chunk c = "" := by
    simp [_render_message_chunk, h1, h2]
  refine ⟨hr, ?_⟩
  simp [processEvent, hr]

/-- Witness for C7 at the concrete chunk with empty text and no
fragments. -/
theorem empty_token_chunk_suppressed_witness :
    _render_message_chunk ⟨"", []⟩ = "" ∧
      processEvent initState (StreamEvent.tokenEv (TokenPayload.chunkTok ⟨"", []⟩)) = initState :=
  empty_token_chunk_suppressed initState ⟨"", []⟩ rfl rfl

/-- C8: `_render_completed_message` is total (never raises) and dispatches
by shape: an assistant message with a non-empty tool-call list renders to
"Tool Calls: " followed by the list representation; an assistant message
without tool calls renders to its content; a tool-result message renders to
"Tool Result: " followed by its content; any other shape renders to its
best-effort string conversion. -/
theorem render_completed_message_dispatch (content tc0 : String) (tcs : List String)
    (s c r : String) :
    _render_completed_message (AnyMessage.ai content (tc0 :: tcs)) =
        "Tool Calls: " ++ pyStrList (tc0 :: tcs) ∧
    _render_completed_message (AnyMessage.ai content []) = content ∧
    _render_completed_message (AnyMessage.toolMsg s) = "Tool Result: " ++ s ∧
    _render_completed_message (AnyMessage.other c r) = r := by
  refine ⟨?_, rfl, rfl, rfl⟩
  simp [_render_completed_message]

theorem assembleStreamModes_eq (st : AggState) :
    assembleStreamModes st =
      (if st.messagesBucket = [] then [] else [⟨"messages", st.messagesBucket⟩]) ++
      (if st.updatesBucket = [] then [] else [⟨"updates", st.updatesBucket⟩]) ++
      (if st.customBucket = [] then [] else [⟨"custom", st.customBucket⟩]) := by
  by_cases h1 : st.messagesBucket = [] <;> by_cases h2 : st.updatesBucket = [] <;>
    by_cases h3 : st.customBucket = [] <;>
      simp [assembleStreamModes, h1, h2, h3]

/-- C4: no `StreamModeInfo` the aggregator returns has an empty `steps`
sequence — a mode bucket that accumulated no steps is excluded. -/
theorem stream_modes_no_empty_steps (events : List StreamEvent) (m : StreamModeInfo)
    (hm : m ∈ (stream_handle_response events).2) : m.steps ≠ [] := by
  have hm' : m ∈ assembleStreamModes (finalState events) := hm
  rw [assembleStreamModes] at hm'
  obtain ⟨p, hp, rfl⟩ := List.mem_map.mp hm'
  simpa using (List.mem_filter.mp hp).2

/-- Witness for C4 at a one-event stream. -/
theorem stream_modes_no_empty_steps_witness :
    (StreamModeInfo.mk "custom" [⟨"", "note"⟩]).steps ≠ [] :=
  stream_modes_no_empty_steps [StreamEvent.customEv "note"]
    ⟨"custom", [⟨"", "note"⟩]⟩ (by decide)

/-- C5: whatever the interleaving of events, the returned `streamModes`
labels form a subsequence of the fixed order "messages" (token), "updates"
(step-update), "custom", and each label is present exactly when its bucket
accumulated at least one step. -/
theorem stream_modes_fixed_order (events : List StreamEvent) :
    ((stream_handle_response events).2.map StreamModeInfo.stream_mode).Sublist
        ["messages", "updates", "custom"] ∧
    ("messages" ∈ (stream_handle_response events).2.map StreamModeInfo.stream_mode ↔
        (finalState events).messagesBucket ≠ []) ∧
    ("updates" ∈ (stream_handle_response events).2.map StreamModeInfo.stream_mode ↔
        (finalState events).updatesBucket ≠ []) ∧
    ("custom" ∈ (stream_handle_response events).2.map StreamModeInfo.stream_mode ↔
        (finalState events).customBucket ≠ []) := by
  have he : (stream_handle_response events).2 = assembleStreamModes (finalState events) := rfl
  rw [he, assembleStreamModes_eq]
  by_cases h1 : (finalState events).messagesBucket = [] <;>
    by_cases h2 : (finalState events).updatesBucket = [] <;>
      by_cases h3 : (finalState events).customBucket = [] <;>
        simp [h1, h2, h3]

/-- The way one handler step may change the `"updates"` bucket and the
`final_response` variable: the bucket is only appended to, and a changed
final response is the `message` of some step now in the bucket. -/
def BucketEvolves (st st' : AggState) : Prop :=
  (∃ tail, st'.updatesBucket = st.updatesBucket ++ tail) ∧
  (st'.final_response = st.final_response ∨
    ∃ s ∈ st'.updatesBucket, s.message = st'.final_response)

theorem bucketEvolves_refl (st : AggState) : BucketEvolves st st :=
  ⟨⟨[], by simp⟩, Or.inl rfl⟩

theorem bucketEvolves_trans {a b c : AggState}
    (h1 : BucketEvolves a b) (h2 : BucketEvolves b c) : BucketEvolves a c := by
  obtain ⟨⟨t1, ht1⟩, hf1⟩ := h1
  obtain ⟨⟨t2, ht2⟩, hf2⟩ := h2
  refine ⟨⟨t1 ++ t2, by rw [ht2, ht1, List.append_assoc]⟩, ?_⟩
  cases hf2 with
  | inl he =>
      cases hf1 with
      | inl he1 => exact Or.inl (he.trans he1)
      | inr hw =>
          obtain ⟨s, hs, hm⟩ := hw
          exact Or.inr ⟨s, by rw [ht2]; exact List.mem_append_left _ hs, by rw [he, hm]⟩
  | inr hw => exact Or.inr hw

theorem processNodeItem_evolves (st : AggState) (it : String × NodeData) :
    BucketEvolves st (processNodeItem st it) := by
  obtain ⟨name, msgs?⟩ := it
  obtain ⟨msgs?⟩ := msgs?
  cases msgs? with
  | none => exact bucketEvolves_refl st
  | some msgs =>
      cases hl : msgs.getLast? with
      | none =>
          refine ⟨⟨[], ?_⟩, Or.inl ?_⟩ <;> simp [processNodeItem, hl]
      | some m =>
          cases m with
          | ai c tc =>
              by_cases htc : tc = []
              · constructor
                · exact ⟨[⟨name, _render_completed_message (.ai c tc)⟩],
                    by simp [processNodeItem, hl, htc]⟩
                · right
                  refine ⟨⟨name, _render_completed_message (.ai c tc)⟩, ?_, ?_⟩ <;>
                    simp [processNodeItem, hl, htc]
              · refine ⟨⟨[⟨name, _render_completed_message (.ai c tc)⟩], ?_⟩, Or.inl ?_⟩ <;>
                  simp [processNodeItem, hl, htc]
          | toolMsg c =>
              refine ⟨⟨[⟨name, _render_completed_message (.toolMsg c)⟩], ?_⟩, Or.inl ?_⟩ <;>
                simp [processNodeItem, hl]
          | other c r =>
              refine ⟨⟨[⟨name, _render_completed_message (.other c r)⟩], ?_⟩, Or.inl ?_⟩ <;>
                simp [processNodeItem, hl]

theorem foldl_processNodeItem_evolves (chunk : List (String × NodeData)) (st : AggState) :
    BucketEvolves st (chunk.foldl processNodeItem st) := by
  induction chunk generalizing st with
  | nil => exact bucketEvolves_refl st
  | cons x xs ih => exact bucketEvolves_trans (processNodeItem_evolves st x) (ih _)

theorem processEvent_evolves (st : AggState) (ev : StreamEvent) :
    BucketEvolves st (processEvent st ev) := by
  cases ev with
  | tokenEv p =>
      cases p with
      | chunkTok c =>
          simp only [processEvent]
          split
          · exact ⟨⟨[], by simp⟩, Or.inl rfl⟩
          · exact bucketEvolves_refl st
      | nonChunk s => exact bucketEvolves_refl st
  | updatesEv chunk => exact foldl_processNodeItem_evolves chunk st
  | customEv s => exact ⟨⟨[], by simp [processEvent]⟩, Or.inl rfl⟩

theorem foldl_processEvent_evolves (events : List StreamEvent) (st : AggState) :
    BucketEvolves st (events.foldl processEvent st) := by
  induction events generalizing st with
  | nil => exact bucketEvolves_refl st
  | cons ev evs ih => exact bucketEvolves_trans (processEvent_evolves st ev) (ih _)

/-- C10: when the aggregator's final response is non-empty, it is the
`message` of some step of the `"updates"` entry of the returned
`streamModes` — the answer text always also appears in the trace. -/
theorem final_response_in_updates_trace (events : List StreamEvent)
    (h : (stream_handle_response events).1 ≠ "") :
    ∃ m ∈ (stream_handle_response events).2, m.stream_mode = "updates" ∧
      ∃ s ∈ m.steps, s.message = (stream_handle_response events).1 := by
  have h1 : (stream_handle_response events).1 = (finalState events).final_response := rfl
  obtain ⟨-, hf⟩ := foldl_processEvent_evolves events initState
  cases hf with
  | inl he => exact absurd (h1.trans he) h
  | inr hw =>
      obtain ⟨s, hs, hm⟩ := hw
      have hb : (finalState events).updatesBucket ≠ [] := List.ne_nil_of_mem hs
      refine ⟨⟨"updates", (finalState events).updatesBucket⟩, ?_, rfl, ⟨s, hs, hm.trans h1.symm⟩⟩
      show _ ∈ assembleStreamModes (finalState events)
      rw [assembleStreamModes_eq]
      simp [hb]

/-- Witness for C10 at a one-event stream carrying a bare assistant
answer. -/
theorem final_response_in_updates_trace_witness :
    ∃ m ∈ (stream_handle_response
        [StreamEvent.updatesEv [("answer", ⟨some [AnyMessage.ai "Hi there" []]⟩)]]).2,
      m.stream_mode = "updates" ∧
      ∃ s ∈ m.steps, s.message =
        (stream_handle_response
          [StreamEvent.updatesEv [("answer", ⟨some [AnyMessage.ai "Hi there" []]⟩)]]).1 :=
  final_response_in_updates_trace
    [StreamEvent.updatesEv [("answer", ⟨some [AnyMessage.ai "Hi there" []]⟩)]] (by decide)

/-- C2 (amended): `process_query` is total over every outcome of its try
body (it never raises); on an exception `e` it returns response `""`,
streamModes `[]` and error `str(e)` — which is the empty string exactly when
the exception stringifies to the empty string, so the error is not always
non-empty — and whenever the error field is set the response and the
streamModes are empty. -/
theorem process_query_error_contract (e : String)
    (outcome : Except String (String × List StreamModeInfo)) :
    process_query (Except.error e) =
        { response := "", streamModes := [], error := some e } ∧
    ((process_query outcome).error ≠ none →
      (process_query outcome).response = "" ∧ (process_query outcome).streamModes = []) := by
  refine ⟨rfl, ?_⟩
  cases outcome with
  | ok p =>
      obtain ⟨a, b⟩ := p
      intro hne
      exact absurd rfl hne
  | error e2 => exact fun _ => ⟨rfl, rfl⟩

/-- C2 counterexample: at the concrete exception whose `str()` is the empty
string (in Python e.g. `ValueError()`), the returned error field is set but
is the empty string — refuting the claim that the error field is always a
non-empty string. Response and streamModes are still empty. -/
theorem process_query_empty_error_cex :
    process_query (Except.error "") =
      { response := "", streamModes := [], error := some "" } := rfl

/-- C6: when the invoke result is a dict exposing both a non-empty "output"
value and a non-empty messages list, the extracted response is the output
value — not the last message's content — and no stream modes are
produced. -/
theorem invoke_prefers_output (o : String) (ms : List AnyMessage) (m : AnyMessage)
    (strRepr : String) (ho : o ≠ "") :
    invoke_handle_response (InvokeResult.dict (some o) (some (ms ++ [m])) strRepr) =
      (o, []) := by
  simp [invoke_handle_response, List.getLast?_concat, ho]

/-- Witness for C6: output "42" wins over the last message's content
"hi". -/
theorem invoke_prefers_output_witness :
    invoke_handle_response
        (InvokeResult.dict (some "42") (some ([] ++ [AnyMessage.ai "hi" []])) "repr") =
      ("42", []) :=
  invoke_prefers_output "42" [] (AnyMessage.ai "hi" []) "repr" (by decide)

/-- C1, at the claimed scenario: the invoke result is a dict whose "output"
key holds the non-empty value "42" and which has no "messages" key. The
handler returns `str(result)` (carried here as the stand-in string
"str-of-result"), not "42": the conditional expression in the source
consults the "output" key only when the "messages" key is truthy, although
the comment above it ("Try common response keys") and the spec put the
"output" key first in precedence. -/
theorem invoke_output_without_messages_returns_str :
    invoke_handle_response (InvokeResult.dict (some "42") none "str-of-result") =
        ("str-of-result", []) ∧
    invoke_handle_response (InvokeResult.dict (some "42") none "str-of-result") ≠
        ("42", []) := by
  exact ⟨rfl, by decide⟩
